import Mathlib

/-!
# Verification of the SPH-EXA CUDA density engine

Shallow embedding of `kernels::density` and `computeDensity`
(file `cuda/sph/cudaDensity.cu` of the repository) and proofs of the
stated properties of the density computation.

Modelling conventions:
* scalars (`double` in the source) are embedded as `ℚ`, so every formula
  is exact; `std::sqrt` is not rational-valued and is passed around as an
  explicit function parameter `sqrtFn`;
* device memory is embedded as total functions (`ℕ → ℚ`, `ℕ → ℕ`);
  a freshly `cudaMalloc`ed buffer holds unspecified contents, embedded as
  an explicit `UninitMem` parameter of the engine;
* the CUDA grid is sequentialized: one kernel launch is a fold of the
  per-thread function over the thread ids of the grid.  Each thread writes
  only its own output slot and reads no output slots, so this interleaving
  is faithful;
* undefined behaviour of the source (dereferencing the end iterator that
  `std::max_element` returns on an empty task list) is embedded as `none`.
-/

namespace Sphexa

/-- Modelled from the spec: `BBox.hpp` is not under `src/`.  Six extents
plus one periodicity flag per axis (§3 of the spec). -/
structure BBox where
  xmin : ℚ
  xmax : ℚ
  ymin : ℚ
  ymax : ℚ
  zmin : ℚ
  zmax : ℚ
  PBCx : Bool
  PBCy : Bool
  PBCz : Bool
deriving DecidableEq

/-- Modelled from the spec: minimum-image adjustment of one per-axis delta —
"if the raw per-axis delta exceeds half the box extent on that axis,
subtract/add one full extent before squaring" (§4.1). -/
def pbcAdjust (lo hi d : ℚ) : ℚ :=
  let L := hi - lo
  if d > L / 2 then d - L else if d < -(L / 2) then d + L else d

/-- Modelled from the spec: `distancePBC` lives in `kernels.hpp`, which is
not under `src/`.  Euclidean distance with the minimum-image convention on
every axis flagged periodic (§4.1).  The smoothing length `hi` is part of
the call signature but unused, as the spec notes.  `sqrtFn` stands for
`std::sqrt`, which has no rational-valued embedding. -/
def distancePBC (sqrtFn : ℚ → ℚ) (b : BBox) (hi x1 y1 z1 x2 y2 z2 : ℚ) : ℚ :=
  let _ := hi
  let xx := if b.PBCx then pbcAdjust b.xmin b.xmax (x1 - x2) else x1 - x2
  let yy := if b.PBCy then pbcAdjust b.ymin b.ymax (y1 - y2) else y1 - y2
  let zz := if b.PBCz then pbcAdjust b.zmin b.zmax (z1 - z2) else z1 - z2
  sqrtFn (xx * xx + yy * yy + zz * zz)

/-- Modelled from the spec: `lookupTables.hpp` is not under `src/`.
Linear interpolation in the tabulated kernel over the domain `[0, 2]`,
`index = floor(v / tableSpacing)` clamped to `[0, L-2]` (§4.2). -/
def wharmonic_lt_with_derivative (wh whd : List ℚ) (ltsize : ℕ) (v : ℚ) : ℚ :=
  let spacing : ℚ := 2 / (ltsize : ℚ)
  let idx : ℤ := ⌊v / spacing⌋
  let i : ℕ := min idx.toNat (ltsize - 2)
  wh.getD i 0 + whd.getD i 0 * (v - (i : ℚ) * spacing)

/-- The C cast `(int)sincIndex` (line 36 of the kernel): truncation of the
rational toward zero. -/
def cTrunc (q : ℚ) : ℤ :=
  Int.tdiv q.num q.den

/-- The `Task` record (`Task.hpp`, fields evident from their use in
`computeDensity` and from §3 of the spec): an ordered chunk of owned
particle indices, the flattened padded neighbor array, the per-particle
neighbor counts and the per-task neighbor capacity. -/
structure Task where
  clist : List ℕ
  neighbors : List ℕ
  neighborsCount : List ℕ
  ngmax : ℕ
deriving DecidableEq, Inhabited

/-- The particle fields the engine touches (`ParticlesData`, §3 of the
spec; the field set follows the `Evrard` dataset in the repository),
plus representative further fields for the frame property. -/
structure ParticlesData where
  x : List ℚ
  y : List ℚ
  z : List ℚ
  h : List ℚ
  m : List ℚ
  ro : List ℚ
  vx : List ℚ
  vy : List ℚ
  vz : List ℚ
  u : List ℚ
  p : List ℚ
  c : List ℚ
  grad_P_x : List ℚ
  grad_P_y : List ℚ
  grad_P_z : List ℚ
  du : List ℚ
  dt : List ℚ
  wh : List ℚ
  whd : List ℚ
  bbox : BBox
  sincIndex : ℚ
  K : ℚ
deriving DecidableEq

namespace kernels

/-- Shallow embedding of the CUDA kernel `kernels::density` (lines 20–42
of the source), one call per thread id `tid`.  The per-task device arrays
`clist`, `neighbors`, `neighborsCount` and the device output buffer `ro`
are unbounded device memory, embedded as functions; the shared read-only
particle fields are exact device copies of the host vectors, embedded as
the lists themselves.  A thread with `tid >= n` returns at once (line 24);
otherwise it accumulates `roloc` over the first `neighborsCount[tid]`
neighbors (lines 31–39) and writes slot `clist[tid]` (line 41). -/
def density (sqrtFn : ℚ → ℚ) (n : ℕ) (sincIndex K : ℚ) (ngmax : ℕ) (bbox : BBox)
    (clist neighbors neighborsCount : ℕ → ℕ)
    (x y z h m wh whd : List ℚ) (ltsize : ℕ)
    (ro : ℕ → ℚ) (tid : ℕ) : ℕ → ℚ :=
  if n ≤ tid then ro
  else
    let i := clist tid
    let nn := neighborsCount tid
    let roloc : ℚ := (List.range nn).foldl
      (fun acc pj =>
        let j := neighbors (tid * ngmax + pj)
        let dist := distancePBC sqrtFn bbox (h.getD i 0) (x.getD i 0) (y.getD i 0)
          (z.getD i 0) (x.getD j 0) (y.getD j 0) (z.getD j 0)
        let vloc := dist / h.getD i 0
        let w := K * wharmonic_lt_with_derivative wh whd ltsize vloc ^ cTrunc sincIndex
        let value := w / (h.getD i 0 * h.getD i 0 * h.getD i 0)
        acc + value * m.getD j 0) 0
    fun k => if k = i then roloc + m.getD i 0 * K / (h.getD i 0 * h.getD i 0 * h.getD i 0)
             else ro k

end kernels

/-- Unspecified contents of the freshly `cudaMalloc`ed device buffers:
the output buffer `d_ro` and, per stream slot, the `d_clist`,
`d_neighbors` and `d_neighborsCount` double buffers. -/
structure UninitMem where
  ro : ℕ → ℚ
  cl : Bool → ℕ → ℕ
  nb : Bool → ℕ → ℕ
  nc : Bool → ℕ → ℕ

/-- The mutable device state threaded through the task loop: the two
stream slots of per-task double buffers and the device output buffer. -/
structure EngineState where
  cl : Bool → ℕ → ℕ
  nb : Bool → ℕ → ℕ
  nc : Bool → ℕ → ℕ
  dRo : ℕ → ℚ

/-- `cudaMemcpyAsync` host-to-device of `count` elements into a device
buffer: the first `count` slots take the host data, the rest keep their
previous (possibly uninitialized) contents. -/
def copyBuf (dst : ℕ → ℕ) (src : List ℕ) (count : ℕ) : ℕ → ℕ :=
  fun k => if k < count then src.getD k 0 else dst k

/-- Replace the buffer of one stream slot, leaving the other slot alone. -/
def setStream (f : Bool → ℕ → ℕ) (s : Bool) (g : ℕ → ℕ) : Bool → ℕ → ℕ :=
  fun b => if b = s then g else f b

/-- The shared read-only inputs of one engine call (uploaded once,
lines 91–98 of the source). -/
structure Shared where
  sqrtFn : ℚ → ℚ
  sincIndex : ℚ
  K : ℚ
  bbox : BBox
  x : List ℚ
  y : List ℚ
  z : List ℚ
  h : List ℚ
  m : List ℚ
  wh : List ℚ
  whd : List ℚ
  ltsize : ℕ

/-- The body of the task loop (lines 100–127 of the source) for one task
`t` on stream slot `sIdx`: asynchronously copy the task's index list,
neighbor array (`n * ngmax` entries, `ngmax` the shared front-task value)
and neighbor counts into the slot's double buffers, then launch
`kernels::density` on `ceil(n/256)` blocks of `256` threads with the
task's own `t.ngmax`. -/
def runTask (sh : Shared) (ngmax : ℕ) (st : EngineState) (sIdx : Bool) (t : Task) :
    EngineState :=
  let n := t.clist.length
  let cl' := setStream st.cl sIdx (copyBuf (st.cl sIdx) t.clist n)
  let nb' := setStream st.nb sIdx (copyBuf (st.nb sIdx) t.neighbors (n * ngmax))
  let nc' := setStream st.nc sIdx (copyBuf (st.nc sIdx) t.neighborsCount n)
  let dRo' := (List.range ((n + 256 - 1) / 256 * 256)).foldl
    (kernels.density sh.sqrtFn n sh.sincIndex sh.K t.ngmax sh.bbox
      (cl' sIdx) (nb' sIdx) (nc' sIdx) sh.x sh.y sh.z sh.h sh.m sh.wh sh.whd sh.ltsize)
    st.dRo
  ⟨cl', nb', nc', dRo'⟩

/-- The comparator step of `std::max_element` over `clist` sizes
(lines 52–55): keep the current best unless the candidate is strictly
larger, so the first maximal task wins. -/
def pickLarger (best cur : Task) : Task :=
  if best.clist.length < cur.clist.length then cur else best

/-- `std::max_element` over the task list, dereferenced for its `clist`
size (lines 52–55 of the source).  On an empty list `max_element` returns
the end iterator and the source immediately dereferences it: undefined
behaviour, embedded as `none`. -/
def largestChunkSize : List Task → Option ℕ
  | [] => none
  | t :: ts => some ((ts.foldl pickLarger t).clist.length)

/-- Bundle the shared read-only inputs of a call from the particle data
(`ltsize = d.wh.size()`, line 75). -/
def mkShared (sqrtFn : ℚ → ℚ) (d : ParticlesData) : Shared :=
  ⟨sqrtFn, d.sincIndex, d.K, d.bbox, d.x, d.y, d.z, d.h, d.m, d.wh, d.whd, d.wh.length⟩

/-- Shallow embedding of `computeDensity` (lines 46–138 of the source).
`u` holds the unspecified contents of the freshly allocated device
buffers.  On an empty task list the source computes
`std::max_element(...)->clist.size()` on an empty range, dereferencing the
end iterator — undefined behaviour, embedded as `none` (the `ngmax` probe
on line 50 is guarded, the sizing pass on lines 52–55 is not).  Otherwise
the call processes the tasks in order, task `i` on stream slot `i % 2`,
and finishes with one synchronous copy of the whole device output buffer
over `d.ro` (line 130). -/
def computeDensity (sqrtFn : ℚ → ℚ) (u : UninitMem) (taskList : List Task)
    (d : ParticlesData) : Option ParticlesData :=
  if taskList.isEmpty then none
  else
    let np := d.x.length
    let ngmax := (taskList.headD default).ngmax
    let st0 : EngineState := ⟨u.cl, u.nb, u.nc, u.ro⟩
    let stF := taskList.enum.foldl
      (fun st it => runTask (mkShared sqrtFn d) ngmax st (it.1 % 2 == 1) it.2) st0
    some { d with ro := (List.range np).map stF.dRo }

/-! ## Specification layer

Pure per-particle descriptions of what one task writes, used to relate the
buffered, stream-interleaved engine to a simple fold of write sets. -/

/-- The self-contribution `m[i] * K / (h[i] * h[i] * h[i])` (line 41). -/
def selfTerm (sh : Shared) (i : ℕ) : ℚ :=
  sh.m.getD i 0 * sh.K / (sh.h.getD i 0 * sh.h.getD i 0 * sh.h.getD i 0)

/-- The contribution of one neighbor `j` to owned particle `i`
(lines 33–38). -/
def neighborContrib (sh : Shared) (i j : ℕ) : ℚ :=
  sh.K * wharmonic_lt_with_derivative sh.wh sh.whd sh.ltsize
      (distancePBC sh.sqrtFn sh.bbox (sh.h.getD i 0) (sh.x.getD i 0) (sh.y.getD i 0)
        (sh.z.getD i 0) (sh.x.getD j 0) (sh.y.getD j 0) (sh.z.getD j 0)
      / sh.h.getD i 0) ^ cTrunc sh.sincIndex
    / (sh.h.getD i 0 * sh.h.getD i 0 * sh.h.getD i 0) * sh.m.getD j 0

/-- The density value task `t` computes for its `p`-th owned particle. -/
def taskVal (sh : Shared) (t : Task) (p : ℕ) : ℚ :=
  (∑ pj ∈ Finset.range (t.neighborsCount.getD p 0),
    neighborContrib sh (t.clist.getD p 0) (t.neighbors.getD (p * t.ngmax + pj) 0))
  + selfTerm sh (t.clist.getD p 0)

/-- The ordered list of (output slot, value) writes task `t` performs. -/
def taskWrites (sh : Shared) (t : Task) : List (ℕ × ℚ) :=
  (List.range t.clist.length).map fun p => (t.clist.getD p 0, taskVal sh t p)

/-- Apply a list of (slot, value) writes to a buffer, in order. -/
def applyWrites (ws : List (ℕ × ℚ)) (ro : ℕ → ℚ) : ℕ → ℚ :=
  ws.foldl (fun r w => fun k => if k = w.1 then w.2 else r k) ro

/-- The task contract of §3 of the spec: the count array matches the index
list, the flattened neighbor array has the full padded length, and no
neighbor count exceeds the task's `ngmax`. -/
def TaskWF (t : Task) : Prop :=
  t.neighborsCount.length = t.clist.length ∧
  t.neighbors.length = t.clist.length * t.ngmax ∧
  ∀ p < t.clist.length, t.neighborsCount.getD p 0 ≤ t.ngmax

instance decidableTaskWF (t : Task) : Decidable (TaskWF t) := by
  unfold TaskWF
  infer_instance

/-- Two tasks claim no common owned particle. -/
def disjClist (s t : Task) : Prop :=
  ∀ k ∈ s.clist, k ∉ t.clist

instance decidableDisjClist (s t : Task) : Decidable (disjClist s t) := by
  unfold disjClist
  infer_instance

/-! ## Device resource events (for the release-on-exit property)

`computeDensity` acquires and releases device resources in a fixed
source-determined order; the sequence is reified so it can be counted. -/

/-- One CUDA resource-management call of `computeDensity`. -/
inductive CudaEvent where
  | streamCreate : CudaEvent
  | streamDestroy : CudaEvent
  | devAlloc : ℕ → CudaEvent
  | devFree : CudaEvent
deriving DecidableEq

/-- Is the event a device buffer allocation? -/
def isDevAlloc : CudaEvent → Bool
  | CudaEvent.devAlloc _ => true
  | _ => false

/-- Is the event a device buffer release? -/
def isDevFree : CudaEvent → Bool
  | CudaEvent.devFree => true
  | _ => false

/-- The resource-management calls of one successful `computeDensity` call,
in source order (`sizeof(T) = 8` for `double`, `sizeof(int) = 4`):
stream creation (lines 66–67); `utils::cudaMalloc` of `d_x, d_y, d_z, d_h,
d_m, d_ro` (line 79), of `d_wh, d_whd` (line 80), of `d_bbox` (line 81)
and of `d_bbox` a second time (line 83, overwriting the first pointer);
the per-stream double buffers `d_clist[i], d_neighborsCount[i]`
(lines 84–85) and `d_neighbors[i]` (lines 86–87) for the two streams;
stream destruction (lines 132–133); `utils::cudaFree` of the nine named
whole-set buffers (line 135) and of the three per-stream buffers for each
of the two streams (lines 136–137). -/
def deviceEvents (np ltsize largest ngmax sizeBBox : ℕ) : List CudaEvent :=
  List.replicate 2 CudaEvent.streamCreate ++
  List.replicate 6 (CudaEvent.devAlloc (np * 8)) ++
  List.replicate 2 (CudaEvent.devAlloc (ltsize * 8)) ++
  [CudaEvent.devAlloc sizeBBox] ++
  [CudaEvent.devAlloc sizeBBox] ++
  List.replicate 4 (CudaEvent.devAlloc (largest * 4)) ++
  List.replicate 2 (CudaEvent.devAlloc (largest * ngmax * 4)) ++
  List.replicate 2 CudaEvent.streamDestroy ++
  List.replicate 9 CudaEvent.devFree ++
  List.replicate 6 CudaEvent.devFree

/-! ## Concrete data for witnesses and counterexamples -/

/-- A non-periodic box. -/
def exBBox : BBox :=
  ⟨0, 10, 0, 10, 0, 10, false, false, false⟩

/-- Two particles of mass 1, smoothing length 1, at distance 1, with a
two-sample trivial lookup table, `sincIndex = 6`, `K = 1`, and density
array pre-filled with `7`. -/
def exD : ParticlesData where
  x := [0, 1]
  y := [0, 0]
  z := [0, 0]
  h := [1, 1]
  m := [1, 1]
  ro := [7, 7]
  vx := [0, 0]
  vy := [0, 0]
  vz := [0, 0]
  u := [0, 0]
  p := [0, 0]
  c := [0, 0]
  grad_P_x := [0, 0]
  grad_P_y := [0, 0]
  grad_P_z := [0, 0]
  du := [0, 0]
  dt := [0, 0]
  wh := [1, 1]
  whd := [0, 0]
  bbox := exBBox
  sincIndex := 6
  K := 1

/-- A task owning particle 0 only, with zero neighbors. -/
def exTask : Task := ⟨[0], [0], [0], 1⟩

/-- A task owning particle 1 only, with zero neighbors. -/
def exTask2 : Task := ⟨[1], [0], [0], 1⟩

/-- Uninitialized device memory reading as all zeros. -/
def exU0 : UninitMem := ⟨fun _ => 0, fun _ _ => 0, fun _ _ => 0, fun _ _ => 0⟩

/-- Uninitialized device memory whose output buffer reads as all `42`. -/
def exU42 : UninitMem := ⟨fun _ => 42, fun _ _ => 0, fun _ _ => 0, fun _ _ => 0⟩

/-- A concrete stand-in for `std::sqrt` (its values are irrelevant to
every property proved here). -/
def exSqrt : ℚ → ℚ := fun q => q

/-- An all-zero device int buffer. -/
def exBufN : ℕ → ℕ := fun _ => 0

/-- An all-zero device scalar buffer. -/
def exRo : ℕ → ℚ := fun _ => 0

/-- An all-one device int buffer. -/
def exBuf1 : ℕ → ℕ := fun _ => 1

/-! ## Generic fold lemmas -/

/-- A left fold of additions over `List.range` is the starting value plus
the corresponding finite sum. -/
theorem foldl_add_range (f : ℕ → ℚ) :
    ∀ (nn : ℕ) (a : ℚ),
      (List.range nn).foldl (fun acc pj => acc + f pj) a
        = a + ∑ pj ∈ Finset.range nn, f pj := by
  intro nn
  induction nn with
  | zero => intro a; simp
  | succ k ih =>
    intro a
    rw [List.range_succ, List.foldl_append, ih, Finset.sum_range_succ, List.foldl_cons,
      List.foldl_nil, add_assoc]

/-- Folding a step function over a grid of `M ≥ n` thread ids equals
folding over the first `n`, provided threads past `n` do nothing. -/
theorem foldl_range_trim {α : Type} (g : α → ℕ → α) (n : ℕ)
    (hg : ∀ (a : α) (tid : ℕ), n ≤ tid → g a tid = a) :
    ∀ (M : ℕ), n ≤ M → ∀ (a : α),
      (List.range M).foldl g a = (List.range n).foldl g a := by
  intro M hnM
  induction M, hnM using Nat.le_induction with
  | base => intro a; rfl
  | succ M hM ih =>
    intro a
    rw [List.range_succ, List.foldl_append, List.foldl_cons, List.foldl_nil,
      hg _ M hM, ih]

/-! ## Thread-level behaviour of the density kernel -/

/-- A thread whose id is at or past the owned-particle count returns at
once, leaving the output buffer untouched (line 24 of the source). -/
theorem density_pastEnd (f : ℚ → ℚ) (n : ℕ) (si K : ℚ) (g : ℕ) (bbox : BBox)
    (cl nb nc : ℕ → ℕ) (x y z h m wh whd : List ℚ) (L : ℕ) (ro : ℕ → ℚ)
    (tid : ℕ) (hle : n ≤ tid) :
    kernels.density f n si K g bbox cl nb nc x y z h m wh whd L ro tid = ro := by
  simp [kernels.density, hle]

/-- Pointwise description of what one in-range thread leaves in the device
output buffer: slot `cl tid` takes the accumulated density, every other
slot is untouched. -/
theorem density_apply (f : ℚ → ℚ) (n : ℕ) (si K : ℚ) (g : ℕ) (bbox : BBox)
    (cl nb nc : ℕ → ℕ) (x y z h m wh whd : List ℚ) (L : ℕ) (ro : ℕ → ℚ)
    (tid : ℕ) (htid : tid < n) (k : ℕ) :
    kernels.density f n si K g bbox cl nb nc x y z h m wh whd L ro tid k
      = if k = cl tid then
          (∑ pj ∈ Finset.range (nc tid),
            K * wharmonic_lt_with_derivative wh whd L
                (distancePBC f bbox (h.getD (cl tid) 0) (x.getD (cl tid) 0)
                  (y.getD (cl tid) 0) (z.getD (cl tid) 0)
                  (x.getD (nb (tid * g + pj)) 0) (y.getD (nb (tid * g + pj)) 0)
                  (z.getD (nb (tid * g + pj)) 0) / h.getD (cl tid) 0) ^ cTrunc si
              / (h.getD (cl tid) 0 * h.getD (cl tid) 0 * h.getD (cl tid) 0)
              * m.getD (nb (tid * g + pj)) 0)
          + m.getD (cl tid) 0 * K
            / (h.getD (cl tid) 0 * h.getD (cl tid) 0 * h.getD (cl tid) 0)
        else ro k := by
  simp only [kernels.density, if_neg (not_le.2 htid)]
  rw [foldl_add_range, zero_add]

/-- **C1**: for every particle `i = clist[tid]` owned by a task, the
density kernel writes to `ro[i]` exactly the self-term
`m[i] * K / h[i]^3` plus the sum, over the first `neighborsCount[tid]`
neighbors `j = neighbors[tid * ngmax + pj]`, of
`(K * kernelValue(dist(i,j) / h[i])^sincIndex / h[i]^3) * m[j]`, where
`dist` is the periodic distance, the normalization uses the owned
particle's smoothing length, and `sincIndex` is applied as the
C-truncated integer power `(int)sincIndex`. -/
theorem density_kernel_formula (f : ℚ → ℚ) (n : ℕ) (si K : ℚ) (g : ℕ) (bbox : BBox)
    (cl nb nc : ℕ → ℕ) (x y z h m wh whd : List ℚ) (L : ℕ) (ro : ℕ → ℚ)
    (tid : ℕ) (htid : tid < n) :
    kernels.density f n si K g bbox cl nb nc x y z h m wh whd L ro tid (cl tid)
      = m.getD (cl tid) 0 * K
          / (h.getD (cl tid) 0 * h.getD (cl tid) 0 * h.getD (cl tid) 0)
        + ∑ pj ∈ Finset.range (nc tid),
            K * wharmonic_lt_with_derivative wh whd L
                (distancePBC f bbox (h.getD (cl tid) 0) (x.getD (cl tid) 0)
                  (y.getD (cl tid) 0) (z.getD (cl tid) 0)
                  (x.getD (nb (tid * g + pj)) 0) (y.getD (nb (tid * g + pj)) 0)
                  (z.getD (nb (tid * g + pj)) 0) / h.getD (cl tid) 0) ^ cTrunc si
              / (h.getD (cl tid) 0 * h.getD (cl tid) 0 * h.getD (cl tid) 0)
              * m.getD (nb (tid * g + pj)) 0 := by
  rw [density_apply f n si K g bbox cl nb nc x y z h m wh whd L ro tid htid (cl tid),
    if_pos rfl, add_comm]

/-- Witness for C1: the spec's own two-particle scenario — masses 1,
smoothing lengths 1, trivial lookup table, `K = 1`, particle 1 the sole
neighbor of particle 0 at distance 1 — yields density `2`. -/
theorem density_kernel_formula_witness :
    0 < 1 ∧
    kernels.density exSqrt 1 6 1 1 exBBox exBufN exBuf1 exBuf1
        [0, 1] [0, 0] [0, 0] [1, 1] [1, 1] [1, 1] [0, 0] 2 exRo 0 (exBufN 0)
      = 2 := by
  refine ⟨Nat.one_pos, ?_⟩
  rw [density_kernel_formula exSqrt 1 6 1 1 exBBox exBufN exBuf1 exBuf1
    [0, 1] [0, 0] [0, 0] [1, 1] [1, 1] [1, 1] [0, 0] 2 exRo 0 Nat.one_pos]
  norm_num [exBufN, exBuf1, exSqrt, exBBox, distancePBC, wharmonic_lt_with_derivative,
    cTrunc]

/-- **C2**: a thread whose `neighborsCount` entry is zero writes exactly
the self-term `m[i] * K / h[i]^3` to its owned particle's output slot. -/
theorem density_zero_neighbors_self_term (f : ℚ → ℚ) (n : ℕ) (si K : ℚ) (g : ℕ)
    (bbox : BBox) (cl nb nc : ℕ → ℕ) (x y z h m wh whd : List ℚ) (L : ℕ)
    (ro : ℕ → ℚ) (tid : ℕ) (htid : tid < n) (hnn : nc tid = 0) :
    kernels.density f n si K g bbox cl nb nc x y z h m wh whd L ro tid (cl tid)
      = m.getD (cl tid) 0 * K
          / (h.getD (cl tid) 0 * h.getD (cl tid) 0 * h.getD (cl tid) 0) := by
  rw [density_apply f n si K g bbox cl nb nc x y z h m wh whd L ro tid htid (cl tid),
    if_pos rfl, hnn]
  simp

/-- Witness for C2: a single owned particle with zero neighbors gets
density `m * K / h^3 = 1`. -/
theorem density_zero_neighbors_self_term_witness :
    0 < 1 ∧ exBufN 0 = 0 ∧
    kernels.density exSqrt 1 6 1 1 exBBox exBufN exBufN exBufN
        [0, 1] [0, 0] [0, 0] [1, 1] [1, 1] [1, 1] [0, 0] 2 exRo 0 (exBufN 0)
      = 1 := by
  refine ⟨Nat.one_pos, rfl, ?_⟩
  rw [density_zero_neighbors_self_term exSqrt 1 6 1 1 exBBox exBufN exBufN exBufN
    [0, 1] [0, 0] [0, 0] [1, 1] [1, 1] [1, 1] [0, 0] 2 exRo 0 Nat.one_pos rfl]
  norm_num [exBufN]

/-- **C3**: the neighbor loop reads only the entries
`neighbors[tid * ngmax + pj]` with `pj < neighborsCount[tid]`: two
neighbor arrays that agree on those positions produce identical thread
results, whatever the padded entries at and beyond the count hold — the
loop bound is the per-particle count, never the capacity `ngmax`. -/
theorem density_reads_only_counted_neighbors (f : ℚ → ℚ) (n : ℕ) (si K : ℚ)
    (g : ℕ) (bbox : BBox) (cl nc : ℕ → ℕ) (nb₁ nb₂ : ℕ → ℕ)
    (x y z h m wh whd : List ℚ) (L : ℕ) (ro : ℕ → ℚ) (tid : ℕ)
    (hag : ∀ pj < nc tid, nb₁ (tid * g + pj) = nb₂ (tid * g + pj)) :
    kernels.density f n si K g bbox cl nb₁ nc x y z h m wh whd L ro tid
      = kernels.density f n si K g bbox cl nb₂ nc x y z h m wh whd L ro tid := by
  by_cases hle : n ≤ tid
  · rw [density_pastEnd f n si K g bbox cl nb₁ nc x y z h m wh whd L ro tid hle,
      density_pastEnd f n si K g bbox cl nb₂ nc x y z h m wh whd L ro tid hle]
  · have htid : tid < n := not_le.1 hle
    funext k
    rw [density_apply f n si K g bbox cl nb₁ nc x y z h m wh whd L ro tid htid k,
      density_apply f n si K g bbox cl nb₂ nc x y z h m wh whd L ro tid htid k]
    by_cases hk : k = cl tid
    · rw [if_pos hk, if_pos hk]
      have hsum :
          ∀ pj ∈ Finset.range (nc tid),
            K * wharmonic_lt_with_derivative wh whd L
                (distancePBC f bbox (h.getD (cl tid) 0) (x.getD (cl tid) 0)
                  (y.getD (cl tid) 0) (z.getD (cl tid) 0)
                  (x.getD (nb₁ (tid * g + pj)) 0) (y.getD (nb₁ (tid * g + pj)) 0)
                  (z.getD (nb₁ (tid * g + pj)) 0) / h.getD (cl tid) 0) ^ cTrunc si
              / (h.getD (cl tid) 0 * h.getD (cl tid) 0 * h.getD (cl tid) 0)
              * m.getD (nb₁ (tid * g + pj)) 0
            = K * wharmonic_lt_with_derivative wh whd L
                (distancePBC f bbox (h.getD (cl tid) 0) (x.getD (cl tid) 0)
                  (y.getD (cl tid) 0) (z.getD (cl tid) 0)
                  (x.getD (nb₂ (tid * g + pj)) 0) (y.getD (nb₂ (tid * g + pj)) 0)
                  (z.getD (nb₂ (tid * g + pj)) 0) / h.getD (cl tid) 0) ^ cTrunc si
              / (h.getD (cl tid) 0 * h.getD (cl tid) 0 * h.getD (cl tid) 0)
              * m.getD (nb₂ (tid * g + pj)) 0 := by
        intro pj hpj
        rw [hag pj (Finset.mem_range.1 hpj)]
      rw [Finset.sum_congr rfl hsum]
    · rw [if_neg hk, if_neg hk]

/-- Witness for C3: with a zero neighbor count the agreement hypothesis is
vacuous and any two neighbor buffers give the same thread result. -/
theorem density_reads_only_counted_neighbors_witness :
    (∀ pj < exBufN 0, exBuf1 (0 * 1 + pj) = exBufN (0 * 1 + pj)) ∧
    kernels.density exSqrt 1 6 1 1 exBBox exBufN exBuf1 exBufN
        [0, 1] [0, 0] [0, 0] [1, 1] [1, 1] [1, 1] [0, 0] 2 exRo 0
      = kernels.density exSqrt 1 6 1 1 exBBox exBufN exBufN exBufN
          [0, 1] [0, 0] [0, 0] [1, 1] [1, 1] [1, 1] [0, 0] 2 exRo 0 := by
  refine ⟨by decide, ?_⟩
  exact density_reads_only_counted_neighbors exSqrt 1 6 1 1 exBBox exBufN exBufN
    exBuf1 exBufN [0, 1] [0, 0] [0, 0] [1, 1] [1, 1] [1, 1] [0, 0] 2 exRo 0 (by decide)

/-- **C10**: a thread with `tid >= n` returns immediately — its result is
the untouched output buffer whatever the task and particle arrays hold —
and launching on `ceil(n/256) * 256 >= n` threads (the source's grid,
lines 119–120) computes exactly what the first `n` threads compute: the
overlaunch performs no extra write. -/
theorem density_grid_overlaunch_safe (f : ℚ → ℚ) (n : ℕ) (si K : ℚ) (g : ℕ)
    (bbox : BBox) (cl nb nc : ℕ → ℕ) (x y z h m wh whd : List ℚ) (L : ℕ) :
    (∀ (ro : ℕ → ℚ) (tid : ℕ), n ≤ tid →
      kernels.density f n si K g bbox cl nb nc x y z h m wh whd L ro tid = ro)
    ∧ n ≤ (n + 256 - 1) / 256 * 256
    ∧ ∀ ro : ℕ → ℚ,
        (List.range ((n + 256 - 1) / 256 * 256)).foldl
            (kernels.density f n si K g bbox cl nb nc x y z h m wh whd L) ro
          = (List.range n).foldl
              (kernels.density f n si K g bbox cl nb nc x y z h m wh whd L) ro := by
  have hceil : n ≤ (n + 256 - 1) / 256 * 256 := by
    have h1 := Nat.div_add_mod (n + 255) 256
    have h2 : (n + 255) % 256 < 256 := Nat.mod_lt _ (by norm_num)
    omega
  refine ⟨fun ro tid hle =>
    density_pastEnd f n si K g bbox cl nb nc x y z h m wh whd L ro tid hle,
    hceil, fun ro => ?_⟩
  exact foldl_range_trim (kernels.density f n si K g bbox cl nb nc x y z h m wh whd L)
    n (fun a tid hle =>
      density_pastEnd f n si K g bbox cl nb nc x y z h m wh whd L a tid hle)
    _ hceil ro

/-- Witness for C10: thread 5 of a 1-particle launch leaves the output
buffer untouched. -/
theorem density_grid_overlaunch_safe_witness :
    kernels.density exSqrt 1 6 1 1 exBBox exBufN exBufN exBufN
        [0, 1] [0, 0] [0, 0] [1, 1] [1, 1] [1, 1] [0, 0] 2 exRo 5
      = exRo :=
  (density_grid_overlaunch_safe exSqrt 1 6 1 1 exBBox exBufN exBufN exBufN
    [0, 1] [0, 0] [0, 0] [1, 1] [1, 1] [1, 1] [0, 0] 2).1 exRo 5 (by norm_num)

/-! ## Engine-level helper lemmas -/

/-- Reading back the stream slot just written. -/
theorem setStream_same (f : Bool → ℕ → ℕ) (s : Bool) (g : ℕ → ℕ) :
    setStream f s g s = g :=
  if_pos rfl

/-- The grid of the source (lines 119–120) covers all owned particles. -/
theorem grid_ge (n : ℕ) : n ≤ (n + 256 - 1) / 256 * 256 := by
  have h1 := Nat.div_add_mod (n + 255) 256
  have h2 : (n + 255) % 256 < 256 := Nat.mod_lt _ (by norm_num)
  omega

/-- `getD` at an in-range index is a member of the list. -/
theorem getD_mem_of_lt (l : List ℕ) (i : ℕ) (h : i < l.length) :
    l.getD i 0 ∈ l := by
  rw [List.getD_eq_getElem l 0 h]
  exact List.getElem_mem h

/-- The payload of an `enum` entry is a member of the underlying list. -/
theorem snd_mem_of_mem_enum {α : Type} {l : List α} {it : ℕ × α}
    (h : it ∈ l.enum) : it.2 ∈ l := by
  have := List.mem_map_of_mem Prod.snd h
  rwa [List.enum_map_snd] at this

/-- Disjointness of claimed particles is symmetric. -/
theorem disjClist_symm {s t : Task} (h : disjClist s t) : disjClist t s :=
  fun k hkt hks => h k hks hkt

/-- One in-range thread of a launch whose per-task buffers have just been
filled from task `t` writes exactly the task's value for its owned
particle: under the task contract every read lands inside the freshly
copied prefix of the double buffers. -/
theorem density_fresh_buffers (sh : Shared) (t : Task) (b1 b2 b3 : ℕ → ℕ)
    (ro : ℕ → ℚ) (tid : ℕ) (htid : tid < t.clist.length) (hwf : TaskWF t) :
    kernels.density sh.sqrtFn t.clist.length sh.sincIndex sh.K t.ngmax sh.bbox
      (copyBuf b1 t.clist t.clist.length)
      (copyBuf b2 t.neighbors (t.clist.length * t.ngmax))
      (copyBuf b3 t.neighborsCount t.clist.length)
      sh.x sh.y sh.z sh.h sh.m sh.wh sh.whd sh.ltsize ro tid
    = fun k => if k = t.clist.getD tid 0 then taskVal sh t tid else ro k := by
  have hcl : copyBuf b1 t.clist t.clist.length tid = t.clist.getD tid 0 := if_pos htid
  have hnc : copyBuf b3 t.neighborsCount t.clist.length tid
      = t.neighborsCount.getD tid 0 := if_pos htid
  funext k
  rw [density_apply sh.sqrtFn t.clist.length sh.sincIndex sh.K t.ngmax sh.bbox
    (copyBuf b1 t.clist t.clist.length)
    (copyBuf b2 t.neighbors (t.clist.length * t.ngmax))
    (copyBuf b3 t.neighborsCount t.clist.length)
    sh.x sh.y sh.z sh.h sh.m sh.wh sh.whd sh.ltsize ro tid htid k, hcl, hnc]
  by_cases hk : k = t.clist.getD tid 0
  · rw [if_pos hk, if_pos hk]
    unfold taskVal neighborContrib selfTerm
    rw [add_left_inj]
    apply Finset.sum_congr rfl
    intro pj hpj
    have hpjn : pj < t.neighborsCount.getD tid 0 := Finset.mem_range.1 hpj
    have hbound : tid * t.ngmax + pj < t.clist.length * t.ngmax := by
      have hg : pj < t.ngmax := lt_of_lt_of_le hpjn (hwf.2.2 tid htid)
      have hstep : tid * t.ngmax + pj < (tid + 1) * t.ngmax := by
        rw [Nat.succ_mul]
        omega
      exact lt_of_lt_of_le hstep (Nat.mul_le_mul_right t.ngmax htid)
    have hnb : copyBuf b2 t.neighbors (t.clist.length * t.ngmax) (tid * t.ngmax + pj)
        = t.neighbors.getD (tid * t.ngmax + pj) 0 := if_pos hbound
    rw [hnb]
  · rw [if_neg hk, if_neg hk]

/-- Lemma A: processing one well-formed task on any stream slot, with the
shared transfer capacity equal to the task's own `ngmax`, leaves the
device output buffer exactly with the task's write set applied — whatever
the previous buffer contents were. -/
theorem runTask_dRo (sh : Shared) (st : EngineState) (s : Bool) (t : Task)
    (hwf : TaskWF t) :
    (runTask sh t.ngmax st s t).dRo = applyWrites (taskWrites sh t) st.dRo := by
  simp only [runTask, setStream_same]
  rw [foldl_range_trim
    (kernels.density sh.sqrtFn t.clist.length sh.sincIndex sh.K t.ngmax sh.bbox
      (copyBuf (st.cl s) t.clist t.clist.length)
      (copyBuf (st.nb s) t.neighbors (t.clist.length * t.ngmax))
      (copyBuf (st.nc s) t.neighborsCount t.clist.length)
      sh.x sh.y sh.z sh.h sh.m sh.wh sh.whd sh.ltsize)
    t.clist.length
    (fun a tid hle => density_pastEnd sh.sqrtFn t.clist.length sh.sincIndex sh.K
      t.ngmax sh.bbox (copyBuf (st.cl s) t.clist t.clist.length)
      (copyBuf (st.nb s) t.neighbors (t.clist.length * t.ngmax))
      (copyBuf (st.nc s) t.neighborsCount t.clist.length)
      sh.x sh.y sh.z sh.h sh.m sh.wh sh.whd sh.ltsize a tid hle)
    _ (grid_ge t.clist.length) st.dRo]
  rw [List.foldl_ext
    (kernels.density sh.sqrtFn t.clist.length sh.sincIndex sh.K t.ngmax sh.bbox
      (copyBuf (st.cl s) t.clist t.clist.length)
      (copyBuf (st.nb s) t.neighbors (t.clist.length * t.ngmax))
      (copyBuf (st.nc s) t.neighborsCount t.clist.length)
      sh.x sh.y sh.z sh.h sh.m sh.wh sh.whd sh.ltsize)
    (fun r p => fun k => if k = t.clist.getD p 0 then taskVal sh t p else r k)
    st.dRo
    (fun a tid hmem => density_fresh_buffers sh t (st.cl s) (st.nb s) (st.nc s) a tid
      (List.mem_range.1 hmem) hwf)]
  unfold applyWrites taskWrites
  rw [List.foldl_map]

/-- Lemma B: the whole task loop, started in any device state, leaves the
output buffer equal to the sequential application of every task's write
set, provided each task is well-formed and has the shared `ngmax`.  The
stream assignment `i % 2` has no bearing on the result. -/
theorem engine_dRo (sh : Shared) (g : ℕ) :
    ∀ (l : List (ℕ × Task)) (st : EngineState),
      (∀ it ∈ l, TaskWF it.2 ∧ it.2.ngmax = g) →
      (l.foldl (fun st it => runTask sh g st (it.1 % 2 == 1) it.2) st).dRo
        = (l.map Prod.snd).foldl (fun r t => applyWrites (taskWrites sh t) r) st.dRo := by
  intro l
  induction l with
  | nil => intro st _; rfl
  | cons a rest ih =>
    intro st hl
    rw [List.foldl_cons, List.map_cons, List.foldl_cons]
    rw [ih _ (fun it hit => hl it (List.mem_cons_of_mem a hit))]
    have ha := hl a (List.mem_cons_self a rest)
    rw [← ha.2, runTask_dRo sh st (a.1 % 2 == 1) a.2 ha.1]

/-- A slot not named by any write keeps its previous value. -/
theorem applyWrites_notMem (ws : List (ℕ × ℚ)) :
    ∀ (ro : ℕ → ℚ) (k : ℕ), k ∉ ws.map Prod.fst → applyWrites ws ro k = ro k := by
  induction ws with
  | nil => intro ro k _; rfl
  | cons w rest ih =>
    intro ro k hk
    rw [List.map_cons] at hk
    have h1 : k ≠ w.1 := fun he => hk (he ▸ List.mem_cons_self _ _)
    have h2 : k ∉ rest.map Prod.fst := fun hm => hk (List.mem_cons_of_mem _ hm)
    show applyWrites rest _ k = ro k
    rw [ih _ k h2]
    exact if_neg h1

/-- A slot named by some write ends with a value independent of the
buffer the writes were applied to. -/
theorem applyWrites_mem_indep (ws : List (ℕ × ℚ)) :
    ∀ (ro₁ ro₂ : ℕ → ℚ) (k : ℕ), k ∈ ws.map Prod.fst →
      applyWrites ws ro₁ k = applyWrites ws ro₂ k := by
  induction ws with
  | nil => intro _ _ k hk; exact absurd hk (List.not_mem_nil k)
  | cons w rest ih =>
    intro ro₁ ro₂ k hk
    by_cases hm : k ∈ rest.map Prod.fst
    · exact ih _ _ k hm
    · have hk1 : k = w.1 := by
        rw [List.map_cons] at hk
        rcases List.mem_cons.1 hk with h | h
        · exact h
        · exact absurd h hm
      show applyWrites rest _ k = applyWrites rest _ k
      rw [applyWrites_notMem rest _ k hm, applyWrites_notMem rest _ k hm]
      show (if k = w.1 then w.2 else ro₁ k) = if k = w.1 then w.2 else ro₂ k
      rw [if_pos hk1, if_pos hk1]

/-- Applying writes preserves pointwise agreement of two buffers. -/
theorem applyWrites_eq_at (ws : List (ℕ × ℚ)) :
    ∀ (ro₁ ro₂ : ℕ → ℚ) (k : ℕ), ro₁ k = ro₂ k →
      applyWrites ws ro₁ k = applyWrites ws ro₂ k := by
  induction ws with
  | nil => intro _ _ _ h; exact h
  | cons w rest ih =>
    intro ro₁ ro₂ k h
    show applyWrites rest _ k = applyWrites rest _ k
    apply ih
    show (if k = w.1 then w.2 else ro₁ k) = if k = w.1 then w.2 else ro₂ k
    by_cases hk : k = w.1
    · rw [if_pos hk, if_pos hk]
    · rw [if_neg hk, if_neg hk]
      exact h

/-- The slots a task writes are exactly its `clist` entries, in order. -/
theorem taskWrites_fst (sh : Shared) (t : Task) :
    (taskWrites sh t).map Prod.fst = t.clist := by
  unfold taskWrites
  rw [List.map_map]
  apply List.ext_getElem
  · simp
  · intro p h1 h2
    simp only [List.getElem_map, List.getElem_range, Function.comp_apply]
    exact List.getD_eq_getElem t.clist 0 h2

/-- Write sets of tasks claiming no common particle commute. -/
theorem applyWrites_comm (sh : Shared) (t₁ t₂ : Task) (hd : disjClist t₁ t₂)
    (ro : ℕ → ℚ) :
    applyWrites (taskWrites sh t₂) (applyWrites (taskWrites sh t₁) ro)
      = applyWrites (taskWrites sh t₁) (applyWrites (taskWrites sh t₂) ro) := by
  funext k
  by_cases h1 : k ∈ t₁.clist
  · have h2 : k ∉ t₂.clist := hd k h1
    rw [applyWrites_notMem (taskWrites sh t₂) _ k (by rw [taskWrites_fst]; exact h2)]
    exact applyWrites_mem_indep (taskWrites sh t₁) _ _ k
      (by rw [taskWrites_fst]; exact h1)
  · by_cases h2 : k ∈ t₂.clist
    · rw [applyWrites_notMem (taskWrites sh t₁) _ k (by rw [taskWrites_fst]; exact h1)]
      exact (applyWrites_mem_indep (taskWrites sh t₂) _ _ k
        (by rw [taskWrites_fst]; exact h2)).symm
    · rw [applyWrites_notMem (taskWrites sh t₂) _ k (by rw [taskWrites_fst]; exact h2),
        applyWrites_notMem (taskWrites sh t₁) _ k (by rw [taskWrites_fst]; exact h1),
        applyWrites_notMem (taskWrites sh t₁) _ k (by rw [taskWrites_fst]; exact h1),
        applyWrites_notMem (taskWrites sh t₂) _ k (by rw [taskWrites_fst]; exact h2)]

/-- Lemma C: sequentially applying the write sets of pairwise-disjoint
tasks is invariant under permutation of the tasks. -/
theorem foldl_applyWrites_perm (sh : Shared) {l₁ l₂ : List Task}
    (hp : l₁.Perm l₂) :
    l₁.Pairwise disjClist →
    ∀ ro : ℕ → ℚ,
      l₁.foldl (fun r t => applyWrites (taskWrites sh t) r) ro
        = l₂.foldl (fun r t => applyWrites (taskWrites sh t) r) ro := by
  induction hp with
  | nil => intro _ _; rfl
  | cons a hp ih =>
    intro hpw ro
    rw [List.foldl_cons, List.foldl_cons]
    exact ih ((List.pairwise_cons.1 hpw).2) _
  | swap a b l =>
    intro hpw ro
    rw [List.foldl_cons, List.foldl_cons, List.foldl_cons, List.foldl_cons]
    have hd : disjClist b a :=
      (List.pairwise_cons.1 hpw).1 a (List.mem_cons_self a l)
    rw [applyWrites_comm sh b a hd ro]
  | trans hp₁ hp₂ ih₁ ih₂ =>
    intro hpw ro
    rw [ih₁ hpw ro,
      ih₂ ((hp₁.pairwise_iff (fun hxy => disjClist_symm hxy)).1 hpw) ro]

/-- A fold of density threads never touches a slot outside the image of
the `clist` buffer on in-range thread ids. -/
theorem foldl_density_preserve (f : ℚ → ℚ) (n : ℕ) (si K : ℚ) (g : ℕ)
    (bbox : BBox) (cl nb nc : ℕ → ℕ) (x y z h m wh whd : List ℚ) (L : ℕ) :
    ∀ (tids : List ℕ) (ro : ℕ → ℚ) (k : ℕ),
      (∀ tid ∈ tids, tid < n → cl tid ≠ k) →
      (tids.foldl (kernels.density f n si K g bbox cl nb nc x y z h m wh whd L) ro) k
        = ro k := by
  intro tids
  induction tids with
  | nil => intro ro k _; rfl
  | cons tid rest ih =>
    intro ro k hk
    rw [List.foldl_cons]
    rw [ih _ k (fun tid' h' => hk tid' (List.mem_cons_of_mem _ h'))]
    by_cases hle : n ≤ tid
    · rw [density_pastEnd f n si K g bbox cl nb nc x y z h m wh whd L ro tid hle]
    · have htid : tid < n := not_le.1 hle
      rw [density_apply f n si K g bbox cl nb nc x y z h m wh whd L ro tid htid k]
      exact if_neg (fun he => hk tid (List.mem_cons_self _ _) htid he.symm)

/-- Processing one task leaves every output slot outside its `clist`
untouched, with no well-formedness assumption at all. -/
theorem runTask_dRo_untouched (sh : Shared) (g : ℕ) (st : EngineState) (s : Bool)
    (t : Task) (k : ℕ) (hk : k ∉ t.clist) :
    (runTask sh g st s t).dRo k = st.dRo k := by
  simp only [runTask, setStream_same]
  apply foldl_density_preserve
  intro tid _ htid he
  rw [show copyBuf (st.cl s) t.clist t.clist.length tid = t.clist.getD tid 0
    from if_pos htid] at he
  exact hk (he ▸ getD_mem_of_lt t.clist tid htid)

/-- Lemma D: the whole task loop leaves every output slot claimed by no
task untouched. -/
theorem engine_dRo_untouched (sh : Shared) (g : ℕ) :
    ∀ (l : List (ℕ × Task)) (st : EngineState) (k : ℕ),
      (∀ it ∈ l, k ∉ it.2.clist) →
      (l.foldl (fun st it => runTask sh g st (it.1 % 2 == 1) it.2) st).dRo k
        = st.dRo k := by
  intro l
  induction l with
  | nil => intro st k _; rfl
  | cons a rest ih =>
    intro st k hk
    rw [List.foldl_cons,
      ih _ k (fun it hit => hk it (List.mem_cons_of_mem a hit)),
      runTask_dRo_untouched sh g st (a.1 % 2 == 1) a.2 k
        (hk a (List.mem_cons_self a rest))]

/-- Lemma E: a slot claimed by some task ends with a value independent of
the initial (uninitialized) output buffer contents. -/
theorem foldl_applyWrites_covered (sh : Shared) :
    ∀ (l : List Task) (r₁ r₂ : ℕ → ℚ) (k : ℕ),
      ((∃ t ∈ l, k ∈ t.clist) ∨ r₁ k = r₂ k) →
      l.foldl (fun r t => applyWrites (taskWrites sh t) r) r₁ k
        = l.foldl (fun r t => applyWrites (taskWrites sh t) r) r₂ k := by
  intro l
  induction l with
  | nil =>
    intro r₁ r₂ k h
    rcases h with ⟨t, ht, _⟩ | h
    · exact absurd ht (List.not_mem_nil t)
    · exact h
  | cons a rest ih =>
    intro r₁ r₂ k h
    rw [List.foldl_cons, List.foldl_cons]
    apply ih
    rcases h with ⟨t, ht, hk⟩ | h
    · rcases List.mem_cons.1 ht with rfl | ht'
      · exact Or.inr (applyWrites_mem_indep (taskWrites sh t) r₁ r₂ k
          (by rw [taskWrites_fst]; exact hk))
      · exact Or.inl ⟨t, ht', hk⟩
    · exact Or.inr (applyWrites_eq_at (taskWrites sh a) r₁ r₂ k h)

/-- Unfolding `computeDensity` on a nonempty task list. -/
theorem computeDensity_cons (f : ℚ → ℚ) (u : UninitMem) (t0 : Task)
    (ts : List Task) (d : ParticlesData) :
    computeDensity f u (t0 :: ts) d
      = some { d with ro := ((List.range d.x.length).map
          ((t0 :: ts).enum.foldl
            (fun st it => runTask (mkShared f d) t0.ngmax st (it.1 % 2 == 1) it.2)
            ⟨u.cl, u.nb, u.nc, u.ro⟩).dRo) } :=
  rfl

/-- The density output at a slot claimed by no task of a nonempty call is
the uninitialized device buffer value (not the previous host value). -/
theorem computeDensity_ro_untouched (f : ℚ → ℚ) (u : UninitMem) (t0 : Task)
    (ts : List Task) (d : ParticlesData) (i : ℕ) (hi : i < d.x.length)
    (hnot : ∀ t ∈ t0 :: ts, i ∉ t.clist) :
    (computeDensity f u (t0 :: ts) d).map (fun d' => d'.ro.getD i 0)
      = some (u.ro i) := by
  rw [computeDensity_cons, Option.map_some']
  congr 1
  show ((List.range d.x.length).map _).getD i 0 = u.ro i
  rw [List.getD_eq_getElem _ 0 (by simpa using hi), List.getElem_map,
    List.getElem_range]
  exact engine_dRo_untouched (mkShared f d) t0.ngmax ((t0 :: ts).enum)
    ⟨u.cl, u.nb, u.nc, u.ro⟩ i
    (fun it hit => hnot it.2 (snd_mem_of_mem_enum hit))

/-- Every earlier accumulator is bounded by the folded maximum. -/
theorem pickLarger_foldl_ge_acc :
    ∀ (ts : List Task) (acc : Task),
      acc.clist.length ≤ (ts.foldl pickLarger acc).clist.length := by
  intro ts
  induction ts with
  | nil => intro acc; exact le_refl _
  | cons c ts ih =>
    intro acc
    rw [List.foldl_cons]
    refine le_trans ?_ (ih (pickLarger acc c))
    unfold pickLarger
    by_cases hc : acc.clist.length < c.clist.length
    · rw [if_pos hc]; exact le_of_lt hc
    · rw [if_neg hc]

/-- Every list member is bounded by the folded maximum. -/
theorem pickLarger_foldl_ge_mem :
    ∀ (ts : List Task) (acc t : Task), t ∈ ts →
      t.clist.length ≤ (ts.foldl pickLarger acc).clist.length := by
  intro ts
  induction ts with
  | nil => intro acc t ht; exact absurd ht (List.not_mem_nil t)
  | cons c ts ih =>
    intro acc t ht
    rw [List.foldl_cons]
    rcases List.mem_cons.1 ht with rfl | ht'
    · refine le_trans ?_ (pickLarger_foldl_ge_acc ts (pickLarger acc t))
      unfold pickLarger
      by_cases hc : acc.clist.length < t.clist.length
      · rw [if_pos hc]
      · rw [if_neg hc]; exact le_of_not_lt hc
    · exact ih (pickLarger acc c) t ht'

/-! ## Claim theorems C4–C9 -/

/-- **C4**: for every task list of (contract-satisfying) tasks in which no
two tasks claim the same owned particle and all tasks share the same
`ngmax`, permuting the order of the tasks given to `computeDensity` leaves
every particle's output unchanged: each task writes only the output slots
of its own `clist` entries, so submission order never affects the
result. -/
theorem computeDensity_task_order_invariant (f : ℚ → ℚ) (u : UninitMem)
    (d : ParticlesData) (g : ℕ) (l₁ l₂ : List Task) (hperm : l₁.Perm l₂)
    (hwf : ∀ t ∈ l₁, TaskWF t) (hng : ∀ t ∈ l₁, t.ngmax = g)
    (hdisj : l₁.Pairwise disjClist) :
    computeDensity f u l₁ d = computeDensity f u l₂ d := by
  cases l₁ with
  | nil => rw [hperm.symm.eq_nil]
  | cons a l₁' =>
    cases l₂ with
    | nil => exact absurd hperm.eq_nil (by simp)
    | cons b l₂' =>
      rw [computeDensity_cons, computeDensity_cons]
      have hwf₂ : ∀ t ∈ b :: l₂', TaskWF t := fun t ht => hwf t (hperm.mem_iff.2 ht)
      have hng₂ : ∀ t ∈ b :: l₂', t.ngmax = g := fun t ht => hng t (hperm.mem_iff.2 ht)
      rw [hng a (List.mem_cons_self a l₁'), hng₂ b (List.mem_cons_self b l₂')]
      rw [engine_dRo (mkShared f d) g ((a :: l₁').enum) ⟨u.cl, u.nb, u.nc, u.ro⟩
        (fun it hit => ⟨hwf it.2 (snd_mem_of_mem_enum hit),
          hng it.2 (snd_mem_of_mem_enum hit)⟩)]
      rw [engine_dRo (mkShared f d) g ((b :: l₂').enum) ⟨u.cl, u.nb, u.nc, u.ro⟩
        (fun it hit => ⟨hwf₂ it.2 (snd_mem_of_mem_enum hit),
          hng₂ it.2 (snd_mem_of_mem_enum hit)⟩)]
      rw [List.enum_map_snd, List.enum_map_snd]
      rw [foldl_applyWrites_perm (mkShared f d) hperm hdisj u.ro]

/-- Witness for C4: swapping two disjoint single-particle tasks leaves the
output of `computeDensity` unchanged. -/
theorem computeDensity_task_order_invariant_witness :
    [exTask, exTask2].Perm [exTask2, exTask] ∧
    computeDensity exSqrt exU0 [exTask, exTask2] exD
      = computeDensity exSqrt exU0 [exTask2, exTask] exD := by
  refine ⟨by decide, ?_⟩
  exact computeDensity_task_order_invariant exSqrt exU0 exD 1
    [exTask, exTask2] [exTask2, exTask] (by decide) (by decide) (by decide) (by decide)

/-- **C5** (amended): calling `computeDensity` with an empty task list is
not a no-op but undefined behaviour: the source dereferences the end
iterator returned by `std::max_element` over the empty task list
(lines 52–55), embedded as the call returning `none` — it does not return
with the particle data unchanged. -/
theorem computeDensity_empty_task_list_undefined (f : ℚ → ℚ) (u : UninitMem)
    (d : ParticlesData) :
    computeDensity f u [] d = none :=
  rfl

/-- Counterexample for C5: on the empty task list, `computeDensity` does
not behave as a no-op returning the particle data unchanged. -/
theorem computeDensity_empty_not_noop_cex :
    computeDensity exSqrt exU0 [] exD ≠ some exD := by
  simp [computeDensity]

/-- **C6**: the double-buffer sizing pass (`std::max_element` over all
tasks, lines 52–58) yields the true largest chunk: every task's `clist`
length is bounded by it, so each task's per-task transfers — `clist` and
`neighborsCount` of `n` entries, neighbors of `n * ngmax` entries — fit
within the allocated capacities `largest` and `largest * ngmax`. -/
theorem buffers_sized_from_largest_chunk (l : List Task) (L : ℕ)
    (hL : largestChunkSize l = some L) (t : Task) (ht : t ∈ l) (g : ℕ) :
    t.clist.length ≤ L ∧ t.clist.length * g ≤ L * g := by
  cases l with
  | nil => exact absurd hL (by simp [largestChunkSize])
  | cons t0 ts =>
    have hL' : (ts.foldl pickLarger t0).clist.length = L :=
      Option.some.inj hL
    have hle : t.clist.length ≤ (ts.foldl pickLarger t0).clist.length := by
      rcases List.mem_cons.1 ht with rfl | ht'
      · exact pickLarger_foldl_ge_acc ts t
      · exact pickLarger_foldl_ge_mem ts t0 t ht'
    rw [← hL']
    exact ⟨hle, Nat.mul_le_mul_right g hle⟩

/-- Witness for C6: in a two-task list the sizing pass returns `1` and
both tasks fit, with neighbor capacity scaled by `ngmax = 150`. -/
theorem buffers_sized_from_largest_chunk_witness :
    largestChunkSize [exTask, exTask2] = some 1 ∧
    exTask2 ∈ [exTask, exTask2] ∧
    (exTask2.clist.length ≤ 1 ∧ exTask2.clist.length * 150 ≤ 1 * 150) := by
  refine ⟨by decide, by decide, ?_⟩
  exact buffers_sized_from_largest_chunk [exTask, exTask2] 1 (by decide)
    exTask2 (by decide) 150

/-- **C7** (amended): a nonempty `computeDensity` call mutates only the
density array `ro` — every other host field is returned unchanged — and
the returned `ro` has one entry per particle; but an entry whose particle
is referenced by no task's `clist` holds the unspecified contents of the
uninitialized device output buffer, not its pre-call host value. -/
theorem computeDensity_frame_amended (f : ℚ → ℚ) (u : UninitMem) (t0 : Task)
    (ts : List Task) (d : ParticlesData) :
    ∃ d', computeDensity f u (t0 :: ts) d = some d' ∧
      d'.x = d.x ∧ d'.y = d.y ∧ d'.z = d.z ∧ d'.h = d.h ∧ d'.m = d.m ∧
      d'.vx = d.vx ∧ d'.vy = d.vy ∧ d'.vz = d.vz ∧ d'.u = d.u ∧ d'.p = d.p ∧
      d'.c = d.c ∧ d'.grad_P_x = d.grad_P_x ∧ d'.grad_P_y = d.grad_P_y ∧
      d'.grad_P_z = d.grad_P_z ∧ d'.du = d.du ∧ d'.dt = d.dt ∧
      d'.wh = d.wh ∧ d'.whd = d.whd ∧ d'.bbox = d.bbox ∧
      d'.sincIndex = d.sincIndex ∧ d'.K = d.K ∧
      d'.ro.length = d.x.length ∧
      ∀ i < d.x.length, (∀ t ∈ t0 :: ts, i ∉ t.clist) → d'.ro.getD i 0 = u.ro i := by
  refine ⟨_, computeDensity_cons f u t0 ts d, rfl, rfl, rfl, rfl, rfl, rfl, rfl,
    rfl, rfl, rfl, rfl, rfl, rfl, rfl, rfl, rfl, rfl, rfl, rfl, rfl, rfl,
    by simp, ?_⟩
  intro i hi hnot
  have h := computeDensity_ro_untouched f u t0 ts d i hi hnot
  rw [computeDensity_cons, Option.map_some'] at h
  exact Option.some.inj h

/-- Witness for C7 (amended), instantiated at a one-task call covering
particle 0 of the two-particle example data. -/
theorem computeDensity_frame_amended_witness :
    ∃ d', computeDensity exSqrt exU42 (exTask :: []) exD = some d' ∧
      d'.x = exD.x ∧ d'.y = exD.y ∧ d'.z = exD.z ∧ d'.h = exD.h ∧ d'.m = exD.m ∧
      d'.vx = exD.vx ∧ d'.vy = exD.vy ∧ d'.vz = exD.vz ∧ d'.u = exD.u ∧
      d'.p = exD.p ∧ d'.c = exD.c ∧ d'.grad_P_x = exD.grad_P_x ∧
      d'.grad_P_y = exD.grad_P_y ∧ d'.grad_P_z = exD.grad_P_z ∧ d'.du = exD.du ∧
      d'.dt = exD.dt ∧ d'.wh = exD.wh ∧ d'.whd = exD.whd ∧ d'.bbox = exD.bbox ∧
      d'.sincIndex = exD.sincIndex ∧ d'.K = exD.K ∧
      d'.ro.length = exD.x.length ∧
      ∀ i < exD.x.length, (∀ t ∈ exTask :: [], i ∉ t.clist) →
        d'.ro.getD i 0 = exU42.ro i :=
  computeDensity_frame_amended exSqrt exU42 exTask [] exD

/-- Counterexample for C7: particle 1 is referenced by no task, yet its
density entry does not retain its pre-call value `7` — it reads back the
uninitialized device buffer contents (`42` here). -/
theorem computeDensity_unreferenced_overwritten_cex :
    (computeDensity exSqrt exU42 [exTask] exD).map (fun d' => d'.ro.getD 1 0)
      ≠ some (exD.ro.getD 1 0) := by
  rw [computeDensity_ro_untouched exSqrt exU42 exTask [] exD 1 (by decide)
    (by decide)]
  intro h
  have h' := Option.some.inj h
  norm_num [exU42, exD] at h'

/-- **C8** (amended): with every particle index below `np` covered by some
(contract-satisfying) task sharing one `ngmax`, two calls of
`computeDensity` on identical inputs produce identical outputs even when
the unspecified contents of the freshly allocated device buffers differ
between the calls: no uninitialized value can reach the output. -/
theorem computeDensity_deterministic_under_coverage (f : ℚ → ℚ)
    (u₁ u₂ : UninitMem) (l : List Task) (d : ParticlesData) (g : ℕ)
    (hwf : ∀ t ∈ l, TaskWF t) (hng : ∀ t ∈ l, t.ngmax = g)
    (hcov : ∀ i < d.x.length, ∃ t ∈ l, i ∈ t.clist) :
    computeDensity f u₁ l d = computeDensity f u₂ l d := by
  cases l with
  | nil => rfl
  | cons t0 ts =>
    rw [computeDensity_cons, computeDensity_cons]
    rw [hng t0 (List.mem_cons_self t0 ts)]
    rw [engine_dRo (mkShared f d) g ((t0 :: ts).enum) ⟨u₁.cl, u₁.nb, u₁.nc, u₁.ro⟩
      (fun it hit => ⟨hwf it.2 (snd_mem_of_mem_enum hit),
        hng it.2 (snd_mem_of_mem_enum hit)⟩)]
    rw [engine_dRo (mkShared f d) g ((t0 :: ts).enum) ⟨u₂.cl, u₂.nb, u₂.nc, u₂.ro⟩
      (fun it hit => ⟨hwf it.2 (snd_mem_of_mem_enum hit),
        hng it.2 (snd_mem_of_mem_enum hit)⟩)]
    rw [List.enum_map_snd]
    have hro : (List.range d.x.length).map
        ((t0 :: ts).foldl (fun r t => applyWrites (taskWrites (mkShared f d) t) r) u₁.ro)
      = (List.range d.x.length).map
        ((t0 :: ts).foldl (fun r t => applyWrites (taskWrites (mkShared f d) t) r) u₂.ro) := by
      apply List.map_congr_left
      intro i hi
      exact foldl_applyWrites_covered (mkShared f d) (t0 :: ts) u₁.ro u₂.ro i
        (Or.inl (hcov i (List.mem_range.1 hi)))
    rw [hro]

/-- Witness for C8 (amended): with both particles covered, the output is
the same for all-zero and all-42 uninitialized device memory. -/
theorem computeDensity_deterministic_under_coverage_witness :
    (∀ i < exD.x.length, ∃ t ∈ [exTask, exTask2], i ∈ t.clist) ∧
    computeDensity exSqrt exU0 [exTask, exTask2] exD
      = computeDensity exSqrt exU42 [exTask, exTask2] exD := by
  refine ⟨by decide, ?_⟩
  exact computeDensity_deterministic_under_coverage exSqrt exU0 exU42
    [exTask, exTask2] exD 1 (by decide) (by decide) (by decide)

/-- Counterexample for C8: with particle 1 uncovered, two successive calls
on identical inputs differ whenever the fresh device allocations happen to
hold different garbage (all-zero versus all-42 here): the engine is not a
function of its declared inputs alone. -/
theorem computeDensity_uninit_dependent_cex :
    computeDensity exSqrt exU0 [exTask] exD
      ≠ computeDensity exSqrt exU42 [exTask] exD := by
  intro heq
  have h1 := computeDensity_ro_untouched exSqrt exU0 exTask [] exD 1 (by decide)
    (by decide)
  have h2 := computeDensity_ro_untouched exSqrt exU42 exTask [] exD 1 (by decide)
    (by decide)
  rw [heq, h2] at h1
  have h' := Option.some.inj h1
  norm_num [exU0, exU42] at h'

/-- **C9**: the resource trace of a successful `computeDensity` call
performs 16 device allocations but only 15 releases — the bounding-box
buffer allocated on line 81 is leaked when line 83 repeats the allocation
and overwrites the pointer, and only the second copy is freed — so not
every acquired device resource is released even on the successful exit
path (and the `CHECK_CUDA_ERR` failure paths release nothing at all). -/
theorem computeDensity_alloc_free_mismatch (np ltsize largest ngmax sizeBBox : ℕ) :
    (deviceEvents np ltsize largest ngmax sizeBBox).countP isDevAlloc = 16 ∧
    (deviceEvents np ltsize largest ngmax sizeBBox).countP isDevFree = 15 ∧
    (deviceEvents np ltsize largest ngmax sizeBBox).countP isDevAlloc
      ≠ (deviceEvents np ltsize largest ngmax sizeBBox).countP isDevFree := by
  have h1 : (deviceEvents np ltsize largest ngmax sizeBBox).countP isDevAlloc = 16 := rfl
  have h2 : (deviceEvents np ltsize largest ngmax sizeBBox).countP isDevFree = 15 := rfl
  exact ⟨h1, h2, by rw [h1, h2]; omega⟩

end Sphexa
